import Mathlib

/-!
Shallow embedding of the multi-agent e-commerce dashboard
(`src/agents/scraper_agent.py`, `analysis_agent.py`, `prediction_agent.py`,
`comparison_agent.py`).

Tables are lists of rows; pandas column-presence is modelled by Boolean
flags on the table, and nullable cells (`NaN`) by `Option`.  Prices and
ratings are modelled as exact rationals (`ℚ`).  External collaborators —
the shopping-search HTTP API, the price-history HTTP API, numpy's random
simulation draws, and the fitted sklearn regressor — are passed in as
explicit oracle arguments, exactly at the boundary where the Python code
calls them.
-/

namespace ECom

/-- A raw pandas cell: a string, a number, or a missing value (`NaN`/`None`).
Used for the columns that `clean_data` coerces. -/
inductive CellVal where
  | str (s : String)
  | num (q : ℚ)
  | null
deriving DecidableEq, Repr

/-- Digits of a decimal string as a natural number; `none` if any character is
not a digit.  The empty list parses to `0` (callers rule out the case where
both the integer and the fractional part are empty). -/
def digitsVal (l : List Char) : Option ℕ :=
  if l.all Char.isDigit then
    some (l.foldl (fun a c => 10 * a + (c.toNat - 48)) 0)
  else
    none

/-- Strip leading and trailing whitespace from a character list (the
`str.strip()` / `to_numeric` whitespace tolerance). -/
def trimChars (l : List Char) : List Char :=
  ((l.dropWhile Char.isWhitespace).reverse.dropWhile Char.isWhitespace).reverse

/-- Decimal-literal parser modelling `pandas.to_numeric(..., errors='coerce')`
/ Python `float()` on the plain decimal strings that occur after the price
regex strip: optional sign, digits, optional single `'.'`, digits; at least
one digit overall; surrounding whitespace removed.  (Exponent and `inf`/`nan`
literals are not modelled: they cannot arise from the scraped price strings.) -/
def parseDecimal (s : String) : Option ℚ :=
  let l := trimChars s.toList
  let (sign, body) : ℚ × List Char :=
    match l with
    | '-' :: rest => (-1, rest)
    | '+' :: rest => (1, rest)
    | _ => (1, l)
  let intPart := body.takeWhile (· ≠ '.')
  let rest := body.dropWhile (· ≠ '.')
  let fracPart :=
    match rest with
    | '.' :: f => some f
    | [] => some []
    | _ => none
  match fracPart with
  | none => none
  | some f =>
    if intPart.isEmpty && f.isEmpty then none
    else
      match digitsVal intPart, digitsVal f with
      | some i, some fv => some (sign * ((i : ℚ) + (fv : ℚ) / (10 : ℚ) ^ f.length))
      | _, _ => none

/-- `df['price'].astype(str).str.replace(r'[₹,$,]', '', regex=True)`:
remove every `'₹'`, `','` and `'$'` character. -/
def stripPriceChars (s : String) : String :=
  String.mk (s.toList.filter (fun c => c ≠ '₹' ∧ c ≠ ',' ∧ c ≠ '$'))

/-- Price coercion of `clean_data`: `astype(str)` then the regex strip then
`pd.to_numeric(..., errors='coerce')`.  A numeric cell round-trips through its
string form unchanged; `NaN` stringifies to `"nan"` which `to_numeric` maps
back to `NaN`. -/
def toNumericPrice : CellVal → Option ℚ
  | .num q => some q
  | .null => none
  | .str s => parseDecimal (stripPriceChars s)

/-- Truncation toward zero, as numpy's float→int `astype(int)` cast. -/
def truncRat (q : ℚ) : ℤ := q.num.tdiv q.den

/-- Reviews coercion of `clean_data`: `astype(str)`, drop `','`, `to_numeric`
with coercion, `fillna(0)`, `astype(int)`. -/
def toReviews : CellVal → ℤ
  | .num q => truncRat q
  | .null => 0
  | .str s =>
    match parseDecimal (String.mk (s.toList.filter (· ≠ ','))) with
    | some q => truncRat q
    | none => 0

/-- Rating coercion of `clean_data`: `pd.to_numeric(..., errors='coerce')`. -/
def toNumericRating : CellVal → Option ℚ
  | .num q => some q
  | .null => none
  | .str s => parseDecimal s

/-- A row as fed to `clean_data` (scraper output): the three columns the
function coerces are raw cells; the identifying columns are kept as strings. -/
structure RawRow where
  title : String
  price : CellVal
  reviews : CellVal
  rating : CellVal
  source : String
  seller : String
  link : String
deriving DecidableEq, Repr

/-- The raw table.  `hasSource`/`hasSeller`/`hasLink` model whether the
corresponding pandas column exists (when a flag is `false` the rows' field is
meaningless). -/
structure RawTable where
  hasSource : Bool
  hasSeller : Bool
  hasLink : Bool
  rows : List RawRow
deriving DecidableEq, Repr

/-- A cleaned listing row.  `price` is numeric and present; `rating` and the
three enrichment columns are nullable. -/
structure Row where
  title : String
  price : ℚ
  source : String
  seller : String
  rating : Option ℚ
  reviews : ℤ
  link : String
  historicAvg : Option ℚ
  priceVolatility : Option ℚ
  priceChange24h : Option ℚ
deriving DecidableEq, Repr

/-- A cleaned/enriched table.  Column-presence flags again model the pandas
schema: `hasHistoric` is whether the three price-history columns exist. -/
structure Table where
  hasSource : Bool
  hasSeller : Bool
  hasHistoric : Bool
  rows : List Row
deriving DecidableEq, Repr

/-- Source/seller resolution of `clean_data` (lines 33-40 of
`analysis_agent.py`): mirror whichever of the two columns exists onto the
other, or fill both with `'Unknown'`. -/
def resolveSourceSeller (t : RawTable) (r : RawRow) : String × String :=
  if t.hasSource && !t.hasSeller then (r.source, r.source)
  else if t.hasSeller && !t.hasSource then (r.seller, r.seller)
  else if !t.hasSource && !t.hasSeller then ("Unknown", "Unknown")
  else (r.source, r.seller)

/-- `clean_data` (`analysis_agent.py` lines 13-46): coerce price/reviews/rating,
drop rows whose price is missing or `≤ 0`, ensure `source`/`seller`/`link`
columns exist.  (On an empty input the Python function returns the input
DataFrame unchanged; it is empty, so we return the empty clean table.) -/
def clean_data (t : RawTable) : Table :=
  { hasSource := true
    hasSeller := true
    hasHistoric := false
    rows := t.rows.filterMap (fun r =>
      match toNumericPrice r.price with
      | none => none
      | some p =>
        if 0 < p then
          let ss := resolveSourceSeller t r
          some { title := r.title
                 price := p
                 source := ss.1
                 seller := ss.2
                 rating := toNumericRating r.rating
                 reviews := toReviews r.reviews
                 link := if t.hasLink then r.link else ""
                 historicAvg := none
                 priceVolatility := none
                 priceChange24h := none }
        else none) }

/-! ### Agent 2 enrichment: `fetch_price_history_and_volatility` -/

/-- The per-listing price-history triple: historic average, volatility,
24-hour change. -/
structure HistTriple where
  avg : ℚ
  vol : ℚ
  chg : ℚ
deriving DecidableEq, Repr

/-- A decoded price-API response body; each field is present or absent
(`'average_price' in data`, …). -/
structure ApiData where
  averagePrice : Option ℚ
  volatility : Option ℚ
  changePercentage : Option ℚ
deriving DecidableEq, Repr

/-- Python `round(x, 2)` (modelled as round-half-up; Python uses banker's
rounding on floats, a difference immaterial to every claim below). -/
def round2 (q : ℚ) : ℚ := (⌊q * 100 + 1/2⌋ : ℚ) / 100

/-- Python truthiness of the API-key argument: a key is "provided" when it is
present and not the empty string. -/
def keyTruthy : Option String → Bool
  | none => false
  | some s => s ≠ ""

/-- The loop body of `fetch_price_history_and_volatility` for one listing
(`analysis_agent.py` lines 66-102).  `sim` is the numpy-random simulation
(its draws, mean and std are opaque randomness, so the resulting
(avg, volatility, change) triple is passed in as an oracle); `api` is the
price-history HTTP call, returning either a decoded body or a raised
exception.  The API is consulted only when the key and the row's link are
truthy; on an exception the simulation values are kept; on success each field
present in the body overrides the corresponding simulation value. -/
def fetchRowTriple (key : Option String) (sim : Row → HistTriple)
    (api : Row → Except String ApiData) (r : Row) : HistTriple :=
  let t0 := sim r
  let t1 :=
    if keyTruthy key && (r.link ≠ "") then
      match api r with
      | .error _ => t0
      | .ok d =>
        { avg := d.averagePrice.getD t0.avg
          vol := d.volatility.getD t0.vol
          chg := d.changePercentage.getD t0.chg }
    else t0
  { avg := round2 t1.avg, vol := round2 t1.vol, chg := round2 t1.chg }

/-- One left row's contribution to the pandas left merge on `link`: one
output row per matching right row, or a single row with null history columns
when no right row matches. -/
def mergeRowHist (enriched : List (String × HistTriple)) (r : Row) : List Row :=
  let ms := enriched.filter (fun p => p.1 = r.link)
  if ms.isEmpty then
    [{ r with historicAvg := none, priceVolatility := none, priceChange24h := none }]
  else
    ms.map (fun p =>
      { r with historicAvg := some p.2.avg
               priceVolatility := some p.2.vol
               priceChange24h := some p.2.chg })

/-- `fetch_price_history_and_volatility` (`analysis_agent.py` lines 48-117):
enrich the first `min(5, len)` listings with the price-history triple, then
left-merge the `[link, historic_avg_price, price_volatility, price_change_24h]`
projection of that subset back onto the whole table on the `link` key. -/
def fetch_price_history_and_volatility (key : Option String)
    (sim : Row → HistTriple) (api : Row → Except String ApiData)
    (t : Table) : Table :=
  if t.rows.isEmpty then t
  else
    let enriched := (t.rows.take 5).map (fun r => (r.link, fetchRowTriple key sim api r))
    { t with
      hasHistoric := true
      rows := t.rows.flatMap (mergeRowHist enriched) }

/-! ### Sorting

`DataFrame.sort_values` is modelled by a stable insertion sort over a Boolean
comparison (the claims below depend only on the order of the result and on it
being a permutation of the input). -/

/-- Insert `a` into `l` before the first element `b` with `le a b`. -/
def insertLe (le : α → α → Bool) (a : α) : List α → List α
  | [] => [a]
  | b :: l => if le a b then a :: b :: l else b :: insertLe le a l

/-- Stable insertion sort by the comparison `le`. -/
def sortBy (le : α → α → Bool) : List α → List α
  | [] => []
  | a :: l => insertLe le a (sortBy le l)

/-! ### Agent 3: `run_prediction` -/

/-- A row of the deals report (`deals_df`). -/
structure DealRow where
  title : String
  price : ℚ
  predicted_price : ℚ
  price_difference : ℚ
  source : String
  link : String
deriving DecidableEq, Repr

/-- A row of the feature-importance report. -/
structure FIRow where
  feature : String
  importance : ℚ
deriving DecidableEq, Repr

/-- The source/seller mirroring at the top of `run_prediction`
(`prediction_agent.py` lines 17-20). -/
def ensureSourceSellerP (t : Table) : Table :=
  if t.hasSource && !t.hasSeller then
    { t with hasSeller := true, rows := t.rows.map (fun r => { r with seller := r.source }) }
  else if t.hasSeller && !t.hasSource then
    { t with hasSource := true, rows := t.rows.map (fun r => { r with source := r.seller }) }
  else t

/-- `run_prediction` (`prediction_agent.py` lines 9-118) on the clean-table
schema (where the `seller`, `rating`, `reviews`, `price` columns exist and
only `rating` is nullable, as `clean_data` guarantees).  The sklearn pipeline
is the opaque collaborator: `predict` is the fitted model's prediction for a
feature row, and `rawFI` the `(feature, importance)` pairs it reports; the
code's own part — the `dropna` guard, the `< 5` early return, the
sort/head(15) on importances, and the deals construction and ranking — is
embedded.  Predictions are treated as given (the claim's reading), so the
`except` paths around `fit` are not taken. -/
def run_prediction (predict : Row → ℚ) (rawFI : List FIRow) (t : Table) :
    List FIRow × List DealRow :=
  let t' := ensureSourceSellerP t
  let dfModel := t'.rows.filter (fun r => r.rating.isSome)
  if dfModel.length < 5 then ([], [])
  else
    let fi := (sortBy (fun a b => decide (b.importance ≤ a.importance)) rawFI).take 15
    let deals :=
      sortBy (fun a b => decide (b.price_difference ≤ a.price_difference))
        (dfModel.map (fun r =>
          { title := r.title
            price := r.price
            predicted_price := predict r
            price_difference := predict r - r.price
            source := r.source
            link := r.link : DealRow }))
    (fi, deals)

/-! ### Agent 4: `run_comparison` -/

/-- A row of the cheapest-listings report (columns
`[title, price, source, rating, reviews, link]`). -/
structure CheapRow where
  title : String
  price : ℚ
  source : String
  rating : Option ℚ
  reviews : ℤ
  link : String
deriving DecidableEq, Repr

/-- A row of the per-source price summary. -/
structure SourceRow where
  source : String
  count : ℕ
  min_price : ℚ
  avg_price : ℚ
  max_price : ℚ
deriving DecidableEq, Repr

/-- A row of the historical-value report. -/
structure HistRow where
  title : String
  source : String
  price : ℚ
  historic_avg_price : ℚ
  saving : ℚ
  chg24 : Option ℚ
  vol : Option ℚ
  link : String
deriving DecidableEq, Repr

/-- The in-place `source`-column fix-up at the top of `run_comparison`
(`comparison_agent.py` lines 21-24): it mutates the caller's DataFrame. -/
def ensureSourceComp (t : Table) : Table :=
  if !t.hasSource && t.hasSeller then
    { t with hasSource := true, rows := t.rows.map (fun r => { r with source := r.seller }) }
  else if !t.hasSource then
    { t with hasSource := true, rows := t.rows.map (fun r => { r with source := "Unknown" }) }
  else t

/-- Projection of a listing onto the cheapest-report columns. -/
def projCheap (r : Row) : CheapRow :=
  { title := r.title, price := r.price, source := r.source,
    rating := r.rating, reviews := r.reviews, link := r.link }

/-- Minimum of a list of rationals (groups are nonempty; `0` is junk). -/
def listMin : List ℚ → ℚ
  | [] => 0
  | h :: t => t.foldl min h

/-- Maximum of a list of rationals (groups are nonempty; `0` is junk). -/
def listMax : List ℚ → ℚ
  | [] => 0
  | h :: t => t.foldl max h

/-- The prices of one source's group of listings
(`df_clean.groupby('source')['price']`). -/
def sourcePrices (rows : List Row) (s : String) : List ℚ :=
  (rows.filter (fun r => r.source = s)).map (·.price)

/-- One aggregate row of the source price report (`comparison_agent.py`
lines 39-44): count, min, arithmetic mean and max of the group's prices. -/
def mkSourceRow (rows : List Row) (s : String) : SourceRow :=
  { source := s
    count := (sourcePrices rows s).length
    min_price := listMin (sourcePrices rows s)
    avg_price := (sourcePrices rows s).sum / ((sourcePrices rows s).length : ℚ)
    max_price := listMax (sourcePrices rows s) }

/-- The historical-report row for one listing (`comparison_agent.py` lines
60-69): saving% divides by the historic average with `0` replaced by `1`
(the numerator keeps the original value), and the 24h column is
`price_change_24h * 100`. -/
def mkHist (r : Row) : HistRow :=
  let ha := r.historicAvg.getD 0
  let denom := if ha = 0 then 1 else ha
  { title := r.title
    source := r.source
    price := r.price
    historic_avg_price := ha
    saving := (ha - r.price) / denom * 100
    chg24 := r.priceChange24h.map (· * 100)
    vol := r.priceVolatility
    link := r.link }

/-- The historical-value candidates (`comparison_agent.py` lines 56-63):
the listings with a non-null historic average, with their saving rows. -/
def histCandidates (t : Table) : List HistRow :=
  ((ensureSourceComp t).rows.filter (fun r => r.historicAvg.isSome)).map mkHist

/-- `run_comparison` (`comparison_agent.py` lines 3-92).  The first component
of the result is the caller's table after the call (the function mutates its
argument in place when it lacks a `source` column); the other three are the
cheapest-listings, per-source and historical reports. -/
def run_comparison (t : Table) :
    Table × List CheapRow × List SourceRow × List HistRow :=
  if t.rows.isEmpty then (t, [], [], [])
  else
    let t' := ensureSourceComp t
    let cheapest :=
      ((sortBy (fun a b => decide (a.price ≤ b.price)) t'.rows).take 10).map projCheap
    let keys := (t'.rows.map (·.source)).dedup
    let srcReport :=
      sortBy (fun a b => decide (a.min_price ≤ b.min_price))
        (keys.map (mkSourceRow t'.rows))
    let histReport :=
      if t'.hasHistoric then
        let dfh := t'.rows.filter (fun r => r.historicAvg.isSome)
        if dfh.isEmpty then []
        else (sortBy (fun a b => decide (b.saving ≤ a.saving)) (dfh.map mkHist)).take 10
      else []
    (t', cheapest, srcReport, histReport)

/-! ### Agent 1: `run_scraper` -/

/-- One item of the provider's `shopping_results` array; every field the code
reads is optional (accessed with `item.get(..., default)` or an `in` test). -/
structure SItem where
  title : Option String
  extractedPrice : Option ℚ
  priceStr : Option String
  source : Option String
  link : Option String
  rating : Option ℚ
  reviews : Option ℤ
  productId : Option String
  thumbnail : Option String
  delivery : Option String
deriving DecidableEq, Repr

/-- A decoded provider response. -/
structure SResponse where
  shoppingResults : List SItem
deriving DecidableEq, Repr

/-- A scraped product row (`scraper_agent.py` lines 71-82). -/
structure ProductRow where
  title : String
  price : ℚ
  source : String
  seller : String
  link : String
  rating : Option ℚ
  reviews : ℤ
  productId : String
  thumbnail : String
  delivery : String
deriving DecidableEq, Repr

/-- Price extraction for one item (`scraper_agent.py` lines 60-69):
`extracted_price` when present, else the stripped-and-parsed `price` string
(`0` on a parse failure), else `0`. -/
def extractPrice (it : SItem) : ℚ :=
  match it.extractedPrice with
  | some p => p
  | none =>
    match it.priceStr with
    | some s =>
      (parseDecimal (String.mk (s.toList.filter (fun c => c ≠ '₹' ∧ c ≠ ',')))).getD 0
    | none => 0

/-- Flattening of one provider item into a product row. -/
def mkProduct (it : SItem) : ProductRow :=
  { title := it.title.getD "N/A"
    price := extractPrice it
    source := it.source.getD "Unknown"
    seller := it.source.getD "Unknown"
    link := it.link.getD ""
    rating := it.rating
    reviews := it.reviews.getD 0
    productId := it.productId.getD ""
    thumbnail := it.thumbnail.getD ""
    delivery := it.delivery.getD "N/A" }

/-- `run_scraper` (`scraper_agent.py` lines 11-101).  `resp` is the outcome of
the HTTP request/decoding: `.error` for any raised exception (network failure,
non-2xx status via `raise_for_status`, JSON decode error), `.ok` for a decoded
body.  The whole request is wrapped in `try/except` returning an empty table,
a missing key returns an empty table up front, and an empty `shopping_results`
array returns an empty table. -/
def run_scraper (product_query : String) (apiKey : Option String)
    (resp : Except String SResponse) : List ProductRow :=
  if !(keyTruthy apiKey) then []
  else
    match resp with
    | .error _ => []
    | .ok res =>
      if res.shoppingResults.isEmpty then []
      else res.shoppingResults.map mkProduct

/-! ### Auxiliary projections used by the frame-effect statements -/

/-- Erase the `source` field: two rows agree on every other column iff their
`eraseSource` images agree. -/
def eraseSource (r : Row) : Row := { r with source := "" }

/-- Erase the three price-history fields: two rows agree on every
non-history column iff their `stripHist` images agree. -/
def stripHist (r : Row) : Row :=
  { r with historicAvg := none, priceVolatility := none, priceChange24h := none }

/-! ### Concrete sample inputs for the witnesses and counterexamples -/

/-- A convenience listing builder (rating 4, 10 reviews, no history). -/
def sampleRow (title : String) (price : ℚ) (src : String) (link : String) : Row :=
  { title := title, price := price, source := src, seller := src, rating := some 4,
    reviews := 10, link := link, historicAvg := none, priceVolatility := none,
    priceChange24h := none }

/-- A raw scraped table exercising the three price-cell shapes. -/
def rawSample : RawTable :=
  { hasSource := true, hasSeller := false, hasLink := true,
    rows :=
      [ { title := "a", price := .str "₹1,2", reviews := .str "2x",
          rating := .num 4, source := "Am", seller := "", link := "l1" },
        { title := "b", price := .str "x", reviews := .num 7,
          rating := .null, source := "Fl", seller := "", link := "l2" },
        { title := "c", price := .num 0, reviews := .null,
          rating := .str "4.5", source := "Cr", seller := "", link := "l3" } ] }

/-- The clean row that `clean_data` produces from the first row of
`rawSample`. -/
def cleanRowSample : Row :=
  { title := "a", price := 12, source := "Am", seller := "Am",
    rating := some 4, reviews := 0, link := "l1", historicAvg := none,
    priceVolatility := none, priceChange24h := none }

/-- A six-listing clean table with distinct prices and links. -/
def tableSample : Table :=
  { hasSource := true, hasSeller := true, hasHistoric := false,
    rows :=
      [ sampleRow "a" 30 "Amazon" "la",
        sampleRow "b" 10 "Flipkart" "lb",
        sampleRow "c" 50 "Amazon" "lc",
        sampleRow "d" 20 "Croma" "ld",
        sampleRow "e" 40 "Flipkart" "le",
        sampleRow "f" 60 "Croma" "lf" ] }

/-- A two-listing table (fewer than five complete rows). -/
def smallTable : Table :=
  { hasSource := true, hasSeller := true, hasHistoric := false,
    rows := [sampleRow "a" 30 "Amazon" "la", sampleRow "b" 10 "Flipkart" "lb"] }

/-- A non-empty table lacking the `source` column (but having `seller`). -/
def noSourceTable : Table :=
  { hasSource := false, hasSeller := true, hasHistoric := false,
    rows := [sampleRow "a" 30 "Amazon" "la", sampleRow "b" 10 "Flipkart" "lb"] }

/-- An empty table lacking the `source` column. -/
def emptyNoSource : Table :=
  { hasSource := false, hasSeller := true, hasHistoric := false, rows := [] }

/-- A clean table enriched with history columns (two matched listings, one
unmatched). -/
def histTable : Table :=
  { hasSource := true, hasSeller := true, hasHistoric := true,
    rows :=
      [ { sampleRow "a" 30 "Amazon" "la" with
            historicAvg := some 40, priceVolatility := some 2, priceChange24h := some 1 },
        { sampleRow "b" 10 "Flipkart" "lb" with
            historicAvg := some 0, priceVolatility := some 3, priceChange24h := some (-1) },
        sampleRow "c" 50 "Amazon" "lc" ] }

/-- Two listings sharing the empty link (the scraper's default when the
provider item has no `link`). -/
def dupLinkTable : Table :=
  { hasSource := true, hasSeller := true, hasHistoric := false,
    rows := [sampleRow "a" 10 "Amazon" "", sampleRow "b" 20 "Flipkart" ""] }

/-- A constant stand-in for the numpy-random simulated triple. -/
def simC : Row → HistTriple := fun _ => { avg := 12, vol := 3, chg := 1 }

/-- A price-history API oracle that always raises. -/
def apiErrC : Row → Except String ApiData := fun _ => .error "timeout"

/-- A price-history API oracle that always answers with a full body. -/
def apiOkC : Row → Except String ApiData :=
  fun _ => .ok { averagePrice := some 99, volatility := some 5, changePercentage := some 2 }

/-- A sample prediction oracle: twice the listing price. -/
def predictC : Row → ℚ := fun r => 2 * r.price

/-- The deal row that `run_prediction` with `predictC` produces from the
most underpriced listing of `tableSample`. -/
def dealFSample : DealRow :=
  { title := "f", price := 60, predicted_price := 120, price_difference := 60,
    source := "Croma", link := "lf" }

/-- A provider item carrying only a price string. -/
def sItemA : SItem :=
  { title := some "phone A", extractedPrice := none, priceStr := some "₹1,299",
    source := some "Amazon", link := some "la", rating := some (9/2),
    reviews := some 210, productId := some "p1", thumbnail := none, delivery := none }

/-- A provider item carrying an extracted price. -/
def sItemB : SItem :=
  { title := none, extractedPrice := some 999, priceStr := some "₹9,999",
    source := none, link := none, rating := none,
    reviews := none, productId := none, thumbnail := some "t2", delivery := some "free" }

/-- A sample provider response with two items. -/
def sRespSample : SResponse := { shoppingResults := [sItemA, sItemB] }

/-! ## Helper lemmas -/

theorem perm_insertLe (le : α → α → Bool) (a : α) (l : List α) :
    List.Perm (insertLe le a l) (a :: l) := by
  induction l with
  | nil => exact List.Perm.refl _
  | cons b l ih =>
    simp only [insertLe]
    split
    · exact List.Perm.refl _
    · exact (ih.cons b).trans (List.Perm.swap a b l)

theorem perm_sortBy (le : α → α → Bool) (l : List α) : List.Perm (sortBy le l) l := by
  induction l with
  | nil => exact List.Perm.refl _
  | cons a l ih => exact (perm_insertLe le a (sortBy le l)).trans (ih.cons a)

theorem mem_sortBy {le : α → α → Bool} {a : α} {l : List α} :
    a ∈ sortBy le l ↔ a ∈ l :=
  (perm_sortBy le l).mem_iff

theorem length_sortBy (le : α → α → Bool) (l : List α) :
    (sortBy le l).length = l.length :=
  (perm_sortBy le l).length_eq

theorem pairwise_insertLe (le : α → α → Bool)
    (htrans : ∀ a b c, le a b = true → le b c = true → le a c = true)
    (htot : ∀ a b, le a b = true ∨ le b a = true)
    (a : α) {l : List α} (hl : l.Pairwise (fun x y => le x y = true)) :
    (insertLe le a l).Pairwise (fun x y => le x y = true) := by
  induction l with
  | nil => simp [insertLe]
  | cons b l ih =>
    rw [List.pairwise_cons] at hl
    obtain ⟨hb, hl⟩ := hl
    simp only [insertLe]
    split
    · rename_i h
      refine List.Pairwise.cons ?_ (List.Pairwise.cons hb hl)
      intro y hy
      rcases List.mem_cons.mp hy with rfl | hy
      · exact h
      · exact htrans a b y h (hb y hy)
    · rename_i h
      have hba : le b a = true := (htot a b).resolve_left h
      refine List.Pairwise.cons ?_ (ih hl)
      intro y hy
      rcases List.mem_cons.mp ((perm_insertLe le a l).mem_iff.mp hy) with rfl | hy'
      · exact hba
      · exact hb y hy'

theorem pairwise_sortBy (le : α → α → Bool)
    (htrans : ∀ a b c, le a b = true → le b c = true → le a c = true)
    (htot : ∀ a b, le a b = true ∨ le b a = true)
    (l : List α) : (sortBy le l).Pairwise (fun x y => le x y = true) := by
  induction l with
  | nil => simp [sortBy]
  | cons a l ih => exact pairwise_insertLe le htrans htot a ih

theorem foldl_min_mem (t : List ℚ) : ∀ (a : ℚ), t.foldl min a ∈ a :: t := by
  induction t with
  | nil => intro a; exact List.mem_singleton.mpr rfl
  | cons b t ih =>
    intro a
    rcases List.mem_cons.mp (ih (min a b)) with h | h
    · rcases min_choice a b with h' | h'
      · rw [List.foldl_cons, h, h']; exact List.mem_cons_self _ _
      · rw [List.foldl_cons, h, h']
        exact List.mem_cons_of_mem _ (List.mem_cons_self _ _)
    · exact List.mem_cons_of_mem _ (List.mem_cons_of_mem _ h)

theorem foldl_min_le (t : List ℚ) : ∀ (a : ℚ), ∀ x ∈ a :: t, t.foldl min a ≤ x := by
  induction t with
  | nil => intro a x hx; rw [List.mem_singleton.mp hx]; exact le_refl _
  | cons b t ih =>
    intro a x hx
    have hle : t.foldl min (min a b) ≤ min a b := ih (min a b) _ (List.mem_cons_self _ _)
    rcases List.mem_cons.mp hx with h | hx
    · rw [h]; exact le_trans hle (min_le_left a b)
    · rcases List.mem_cons.mp hx with h | hx
      · rw [h]; exact le_trans hle (min_le_right a b)
      · exact ih (min a b) x (List.mem_cons_of_mem _ hx)

theorem listMin_mem {l : List ℚ} (h : l ≠ []) : listMin l ∈ l := by
  cases l with
  | nil => exact absurd rfl h
  | cons a t => exact foldl_min_mem t a

theorem listMin_le {l : List ℚ} (x : ℚ) (hx : x ∈ l) : listMin l ≤ x := by
  cases l with
  | nil => cases hx
  | cons a t => exact foldl_min_le t a x hx

theorem foldl_max_mem (t : List ℚ) : ∀ (a : ℚ), t.foldl max a ∈ a :: t := by
  induction t with
  | nil => intro a; exact List.mem_singleton.mpr rfl
  | cons b t ih =>
    intro a
    rcases List.mem_cons.mp (ih (max a b)) with h | h
    · rcases max_choice a b with h' | h'
      · rw [List.foldl_cons, h, h']; exact List.mem_cons_self _ _
      · rw [List.foldl_cons, h, h']
        exact List.mem_cons_of_mem _ (List.mem_cons_self _ _)
    · exact List.mem_cons_of_mem _ (List.mem_cons_of_mem _ h)

theorem foldl_max_ge (t : List ℚ) : ∀ (a : ℚ), ∀ x ∈ a :: t, x ≤ t.foldl max a := by
  induction t with
  | nil => intro a x hx; rw [List.mem_singleton.mp hx]; exact le_refl _
  | cons b t ih =>
    intro a x hx
    have hge : max a b ≤ t.foldl max (max a b) := ih (max a b) _ (List.mem_cons_self _ _)
    rcases List.mem_cons.mp hx with h | hx
    · rw [h]; exact le_trans (le_max_left a b) hge
    · rcases List.mem_cons.mp hx with h | hx
      · rw [h]; exact le_trans (le_max_right a b) hge
      · exact ih (max a b) x (List.mem_cons_of_mem _ hx)

theorem listMax_mem {l : List ℚ} (h : l ≠ []) : listMax l ∈ l := by
  cases l with
  | nil => exact absurd rfl h
  | cons a t => exact foldl_max_mem t a

theorem listMax_ge {l : List ℚ} (x : ℚ) (hx : x ∈ l) : x ≤ listMax l := by
  cases l with
  | nil => cases hx
  | cons a t => exact foldl_max_ge t a x hx

theorem filter_key_length_le_one {H : Type} (k : String) :
    ∀ (l : List (String × H)), (l.map Prod.fst).Nodup →
      (l.filter (fun p => p.1 = k)).length ≤ 1 := by
  intro l
  induction l with
  | nil => intro _; simp
  | cons p tl ih =>
    intro hnd
    rw [List.map_cons, List.nodup_cons] at hnd
    obtain ⟨hp, htl⟩ := hnd
    by_cases hk : p.1 = k
    · have htl0 : tl.filter (fun q => decide (q.1 = k)) = [] := by
        rw [List.filter_eq_nil_iff]
        intro q hq
        simp only [decide_eq_true_eq]
        intro hqk
        apply hp
        rw [hk, ← hqk]
        exact List.mem_map_of_mem Prod.fst hq
      simp [List.filter_cons, hk, htl0]
    · simp only [List.filter_cons, decide_eq_true_eq, hk, if_false]
      exact ih htl

theorem map_flatMap_singleton {β : Type} (g : Row → List Row) (f : Row → β)
    (fr : Row → β) (l : List Row) (h : ∀ r ∈ l, (g r).map f = [fr r]) :
    (l.flatMap g).map f = l.map fr := by
  induction l with
  | nil => rfl
  | cons r tl ih =>
    rw [List.flatMap_cons, List.map_append, h r (List.mem_cons_self _ _),
      List.map_cons, ← ih (fun x hx => h x (List.mem_cons_of_mem _ hx))]
    rfl

theorem filter_rating_ensureP (t : Table) :
    ((ensureSourceSellerP t).rows.filter (fun r => r.rating.isSome)).length
      = (t.rows.filter (fun r => r.rating.isSome)).length := by
  unfold ensureSourceSellerP
  split
  · simp only [List.filter_map]
    rw [List.length_map]
    rfl
  · split
    · simp only [List.filter_map]
      rw [List.length_map]
      rfl
    · rfl

/-! ## Claims -/

/-- C2: `clean_data` coerces price, reviews and rating to numeric and drops
unusable rows: every surviving row has a numeric price strictly greater than
zero obtained by a successful parse of some input row's price cell (so no row
whose price failed to parse remains), its reviews value is the integer
coercion of that row's reviews cell, and a missing or unparseable reviews
cell coerces to `0`. -/
theorem clean_data_drops_bad_rows (t : RawTable) :
    (∀ r ∈ (clean_data t).rows,
        0 < r.price ∧
        ∃ raw ∈ t.rows, toNumericPrice raw.price = some r.price ∧
          r.reviews = toReviews raw.reviews ∧ r.rating = toNumericRating raw.rating) ∧
    toReviews CellVal.null = 0 ∧
    (∀ s : String,
        parseDecimal (String.mk (s.toList.filter (· ≠ ','))) = none →
        toReviews (CellVal.str s) = 0) := by
  refine ⟨?_, rfl, ?_⟩
  · intro r hr
    simp only [clean_data, List.mem_filterMap] at hr
    obtain ⟨raw, hraw, hf⟩ := hr
    split at hf
    · exact Option.noConfusion hf
    · rename_i p hp
      split at hf
      · rename_i h0
        injection hf with hf
        subst hf
        exact ⟨h0, raw, hraw, by rw [hp], rfl, rfl⟩
      · exact Option.noConfusion hf
  · intro s h
    simp only [toReviews, h]

set_option maxRecDepth 8000 in
/-- Witness for C2 at a concrete scraped table: the surviving row of
`rawSample` has a positive parsed price and coerced reviews/rating. -/
theorem clean_data_drops_bad_rows_witness :
    (0 < cleanRowSample.price ∧
      ∃ raw ∈ rawSample.rows, toNumericPrice raw.price = some cleanRowSample.price ∧
        cleanRowSample.reviews = toReviews raw.reviews ∧
        cleanRowSample.rating = toNumericRating raw.rating) ∧
    cleanRowSample ∈ (clean_data rawSample).rows :=
  ⟨(clean_data_drops_bad_rows rawSample).1 cleanRowSample (by with_unfolding_all decide),
    by with_unfolding_all decide⟩

/-- C7: `run_scraper` never raises (it is a total function of the request
outcome): it returns an empty table when the API key is absent, when the
provider response raised an exception, or when the response carries no
shopping results, and otherwise returns exactly one flattened row per
returned item. -/
theorem run_scraper_total (q : String) (key : Option String)
    (resp : Except String SResponse) :
    (keyTruthy key = false → run_scraper q key resp = []) ∧
    (∀ e, resp = .error e → run_scraper q key resp = []) ∧
    (∀ res, resp = .ok res → res.shoppingResults = [] →
        run_scraper q key resp = []) ∧
    (∀ res, resp = .ok res → keyTruthy key = true → res.shoppingResults ≠ [] →
        run_scraper q key resp = res.shoppingResults.map mkProduct ∧
        (run_scraper q key resp).length = res.shoppingResults.length) := by
  refine ⟨?_, ?_, ?_, ?_⟩
  · intro h
    simp [run_scraper, h]
  · rintro e rfl
    simp [run_scraper]
  · rintro res rfl h
    simp [run_scraper, h]
  · rintro res rfl hk hne
    have hemp : res.shoppingResults.isEmpty = false := by
      simpa [List.isEmpty_iff] using hne
    constructor
    · simp [run_scraper, hk, hemp]
    · simp [run_scraper, hk, hemp]

/-- Witness for C7 at a concrete key and two-item response, plus the
missing-key and raised-exception cases. -/
theorem run_scraper_total_witness :
    run_scraper "phone" (some "k") (.ok sRespSample)
      = [mkProduct sItemA, mkProduct sItemB] ∧
    run_scraper "phone" none (.ok sRespSample) = [] ∧
    run_scraper "phone" (some "k") (.error "boom") = [] :=
  ⟨((run_scraper_total "phone" (some "k") (.ok sRespSample)).2.2.2 sRespSample rfl
      (by decide) (by decide)).1,
    (run_scraper_total "phone" none (.ok sRespSample)).1 rfl,
    (run_scraper_total "phone" (some "k") (.error "boom")).2.1 "boom" rfl⟩

/-- C9: with fewer than five rows having seller, rating, reviews and price
all present (on the clean-table schema, a present rating), `run_prediction`
returns two empty tables, for every prediction oracle and every
feature-importance response — in particular the result does not depend on the
model collaborator, which is never consulted. -/
theorem run_prediction_small_input (predict : Row → ℚ) (rawFI : List FIRow)
    (t : Table)
    (h : (t.rows.filter (fun r => r.rating.isSome)).length < 5) :
    run_prediction predict rawFI t = ([], []) := by
  have h' : ((ensureSourceSellerP t).rows.filter (fun r => r.rating.isSome)).length < 5 := by
    rw [filter_rating_ensureP]
    exact h
  simp [run_prediction, h']

/-- Witness for C9: a two-listing table. -/
theorem run_prediction_small_input_witness :
    ((smallTable.rows.filter (fun r => r.rating.isSome)).length < 5) ∧
    run_prediction predictC [] smallTable = ([], []) :=
  ⟨by decide, run_prediction_small_input predictC [] smallTable (by decide)⟩

/-- C1: in the deals table returned by `run_prediction`, every row's
`price_difference` equals `predicted_price` minus `price`, and the rows are
sorted in descending order of `price_difference`, for any prediction oracle. -/
theorem run_prediction_deals_ranked (predict : Row → ℚ) (rawFI : List FIRow)
    (t : Table) :
    (∀ d ∈ (run_prediction predict rawFI t).2,
        d.price_difference = d.predicted_price - d.price) ∧
    List.Pairwise (fun a b : DealRow => b.price_difference ≤ a.price_difference)
      (run_prediction predict rawFI t).2 := by
  constructor
  · intro d hd
    simp only [run_prediction] at hd
    split at hd
    · simp at hd
    · rw [mem_sortBy, List.mem_map] at hd
      obtain ⟨r, _, hr⟩ := hd
      rw [← hr]
  · simp only [run_prediction]
    split
    · exact List.Pairwise.nil
    · refine List.Pairwise.imp (fun h => of_decide_eq_true h)
        (pairwise_sortBy _ ?_ ?_ _)
      · intro a b c hab hbc
        rw [decide_eq_true_eq] at *
        exact le_trans hbc hab
      · intro a b
        rcases le_total b.price_difference a.price_difference with h | h
        · exact Or.inl (decide_eq_true h)
        · exact Or.inr (decide_eq_true h)

set_option maxRecDepth 8000 in
/-- Witness for C1: a concrete deal row of the six-listing sample, with its
difference equation. -/
theorem run_prediction_deals_ranked_witness :
    dealFSample ∈ (run_prediction predictC [] tableSample).2 ∧
    dealFSample.price_difference = dealFSample.predicted_price - dealFSample.price :=
  ⟨by with_unfolding_all decide,
    (run_prediction_deals_ranked predictC [] tableSample).1 dealFSample
      (by with_unfolding_all decide)⟩

/-- C3: with no API key the enrichment never contacts the price API (the
result does not depend on the API oracle at all) and each triple is the
rounded simulation triple; with a key, a listing whose API call raises keeps
its already-computed simulation values. -/
theorem fetch_no_key_or_error_keeps_simulation (sim : Row → HistTriple)
    (api api' : Row → Except String ApiData) (t : Table) (key : Option String)
    (r : Row) :
    (fetch_price_history_and_volatility none sim api t
      = fetch_price_history_and_volatility none sim api' t) ∧
    (fetchRowTriple none sim api r
      = { avg := round2 (sim r).avg, vol := round2 (sim r).vol,
          chg := round2 (sim r).chg }) ∧
    (∀ e, api r = .error e →
      fetchRowTriple key sim api r
        = { avg := round2 (sim r).avg, vol := round2 (sim r).vol,
            chg := round2 (sim r).chg }) := by
  refine ⟨rfl, rfl, ?_⟩
  intro e he
  simp only [fetchRowTriple, he]
  split <;> rfl

/-- Witness for C3: under a raising API oracle with a provided key, a concrete
listing keeps the simulation triple. -/
theorem fetch_no_key_or_error_keeps_simulation_witness :
    apiErrC (sampleRow "a" 30 "Amazon" "la") = .error "timeout" ∧
    fetchRowTriple (some "k") simC apiErrC (sampleRow "a" 30 "Amazon" "la")
      = { avg := round2 (simC (sampleRow "a" 30 "Amazon" "la")).avg,
          vol := round2 (simC (sampleRow "a" 30 "Amazon" "la")).vol,
          chg := round2 (simC (sampleRow "a" 30 "Amazon" "la")).chg } :=
  ⟨rfl,
    (fetch_no_key_or_error_keeps_simulation simC apiErrC apiErrC
      { hasSource := true, hasSeller := true, hasHistoric := false, rows := [] }
      (some "k") (sampleRow "a" 30 "Amazon" "la")).2.2 "timeout" rfl⟩

theorem ensureSourceComp_flags (t : Table) :
    (ensureSourceComp t).hasSeller = t.hasSeller ∧
    (ensureSourceComp t).hasHistoric = t.hasHistoric := by
  unfold ensureSourceComp
  split
  · exact ⟨rfl, rfl⟩
  · split
    · exact ⟨rfl, rfl⟩
    · exact ⟨rfl, rfl⟩

theorem ensureSourceComp_rows_nil (t : Table) (h : t.rows = []) :
    (ensureSourceComp t).rows = [] := by
  unfold ensureSourceComp
  split
  · rw [h]; rfl
  · split
    · rw [h]; rfl
    · exact h

theorem run_comparison_fst (t : Table) (h : t.rows.isEmpty = false) :
    (run_comparison t).1 = ensureSourceComp t := by
  simp [run_comparison, h]

/-- Counterexample to C10 as stated: on an empty caller table lacking the
`source` column, `run_comparison` returns at the empty-table guard before the
fix-up and adds no `source` column to the caller's table. -/
theorem run_comparison_empty_no_mutation :
    emptyNoSource.hasSource = false ∧ emptyNoSource.hasSeller = true ∧
    (run_comparison emptyNoSource).1.hasSource = false :=
  ⟨rfl, rfl, rfl⟩

/-- C10 (amended with non-emptiness, which the empty-table early return
forces): on every non-empty input table lacking a `source` column,
`run_comparison` adds a `source` column to the caller's table in place,
copied from `seller` when that column is present and otherwise the constant
`'Unknown'`, leaving every other column unchanged; a table that already has a
`source` column is returned to the caller untouched. -/
theorem run_comparison_mutates_source (t : Table) (h : t.rows ≠ []) :
    (t.hasSource = false → t.hasSeller = true →
      (run_comparison t).1.hasSource = true ∧
      (run_comparison t).1.rows.map (·.source) = t.rows.map (·.seller) ∧
      (run_comparison t).1.rows.map eraseSource = t.rows.map eraseSource) ∧
    (t.hasSource = false → t.hasSeller = false →
      (run_comparison t).1.hasSource = true ∧
      (∀ r ∈ (run_comparison t).1.rows, r.source = "Unknown") ∧
      (run_comparison t).1.rows.map eraseSource = t.rows.map eraseSource) ∧
    (t.hasSource = true → (run_comparison t).1 = t) ∧
    (run_comparison t).1.hasSeller = t.hasSeller ∧
    (run_comparison t).1.hasHistoric = t.hasHistoric := by
  have hne : t.rows.isEmpty = false := by
    cases hr : t.rows with
    | nil => exact absurd hr h
    | cons a l => rfl
  rw [run_comparison_fst t hne]
  refine ⟨?_, ?_, ?_, (ensureSourceComp_flags t).1, (ensureSourceComp_flags t).2⟩
  · intro hs hsl
    have hcomp : ensureSourceComp t
        = { t with
            hasSource := true
            rows := t.rows.map (fun r => { r with source := r.seller }) } := by
      unfold ensureSourceComp
      rw [hs, hsl]
      simp
    rw [hcomp]
    refine ⟨rfl, ?_, ?_⟩
    · rw [List.map_map]; rfl
    · rw [List.map_map]; rfl
  · intro hs hsl
    have hcomp : ensureSourceComp t
        = { t with
            hasSource := true
            rows := t.rows.map (fun r => { r with source := "Unknown" }) } := by
      unfold ensureSourceComp
      rw [hs, hsl]
      simp
    rw [hcomp]
    refine ⟨rfl, ?_, ?_⟩
    · intro r hr
      rw [List.mem_map] at hr
      obtain ⟨r0, _, hr0⟩ := hr
      rw [← hr0]
    · rw [List.map_map]; rfl
  · intro hs
    have hcomp : ensureSourceComp t = t := by
      unfold ensureSourceComp
      rw [hs]
      simp
    exact hcomp

/-- Witness for C10 at a concrete non-empty table lacking `source`. -/
theorem run_comparison_mutates_source_witness :
    noSourceTable.rows ≠ [] ∧
    (run_comparison noSourceTable).1.hasSource = true ∧
    (run_comparison noSourceTable).1.rows.map (·.source)
      = noSourceTable.rows.map (·.seller) :=
  ⟨by decide,
    ((run_comparison_mutates_source noSourceTable (by decide)).1 rfl rfl).1,
    ((run_comparison_mutates_source noSourceTable (by decide)).1 rfl rfl).2.1⟩

theorem mergeRowHist_single (enriched : List (String × HistTriple))
    (hnd : (enriched.map Prod.fst).Nodup) (r : Row) :
    (mergeRowHist enriched r).map stripHist = [stripHist r] := by
  simp only [mergeRowHist]
  split
  · rfl
  · rename_i hne
    have h1 : enriched.filter (fun p => p.1 = r.link) ≠ [] := by
      intro hc
      rw [hc] at hne
      exact hne rfl
    have hlen : (enriched.filter (fun p => p.1 = r.link)).length = 1 := by
      have hge := List.length_pos.mpr h1
      have hle := filter_key_length_le_one r.link enriched hnd
      omega
    obtain ⟨p, hp⟩ := List.length_eq_one.mp hlen
    rw [hp]
    rfl

/-- Counterexample to C8 as stated: two listings share the empty `link` (the
scraper's default), both land in the head-5 enrichment subset, and the left
merge on `link` turns the 2-row clean table into 4 rows — listings are
duplicated. -/
theorem fetch_merge_duplicates_rows :
    dupLinkTable.rows.length = 2 ∧
    (fetch_price_history_and_volatility none simC apiErrC dupLinkTable).rows.length = 4 := by
  constructor
  · rfl
  · with_unfolding_all decide

/-- C8 (amended with distinctness of the head-5 links, which the
duplicate-link counterexample forces): when the links of the first
`min(5, n)` listings are pairwise distinct, enrichment adds the three
price-history columns to the table and changes nothing else: every listing
keeps all its other fields, and no listing is added, dropped, duplicated or
reordered. -/
theorem fetch_merge_preserves_rows (key : Option String) (sim : Row → HistTriple)
    (api : Row → Except String ApiData) (t : Table)
    (hnd : ((t.rows.take 5).map (·.link)).Nodup) :
    (fetch_price_history_and_volatility key sim api t).rows.map stripHist
      = t.rows.map stripHist ∧
    (t.rows ≠ [] →
      (fetch_price_history_and_volatility key sim api t).hasHistoric = true) ∧
    (fetch_price_history_and_volatility key sim api t).hasSource = t.hasSource ∧
    (fetch_price_history_and_volatility key sim api t).hasSeller = t.hasSeller := by
  by_cases he : t.rows.isEmpty
  · have ht : fetch_price_history_and_volatility key sim api t = t := by
      simp [fetch_price_history_and_volatility, he]
    rw [ht]
    exact ⟨rfl, fun hne => absurd (List.isEmpty_iff.mp he) hne, rfl, rfl⟩
  · have hfe : fetch_price_history_and_volatility key sim api t
        = { t with
            hasHistoric := true
            rows := t.rows.flatMap (mergeRowHist
              ((t.rows.take 5).map (fun r => (r.link, fetchRowTriple key sim api r)))) } := by
      simp [fetch_price_history_and_volatility, he]
    rw [hfe]
    refine ⟨?_, fun _ => rfl, rfl, rfl⟩
    apply map_flatMap_singleton _ _ stripHist
    intro r hr
    apply mergeRowHist_single
    rw [List.map_map]
    exact hnd

/-- Witness for C8 at the six-listing sample (all links distinct). -/
theorem fetch_merge_preserves_rows_witness :
    ((tableSample.rows.take 5).map (·.link)).Nodup ∧
    (fetch_price_history_and_volatility none simC apiErrC tableSample).rows.map stripHist
      = tableSample.rows.map stripHist :=
  ⟨by decide,
    (fetch_merge_preserves_rows none simC apiErrC tableSample (by decide)).1⟩

theorem decide_le_trans {α : Type} (f : α → ℚ) :
    ∀ a b c : α, decide (f a ≤ f b) = true → decide (f b ≤ f c) = true →
      decide (f a ≤ f c) = true := by
  intro a b c hab hbc
  rw [decide_eq_true_eq] at *
  exact le_trans hab hbc

theorem decide_le_total {α : Type} (f : α → ℚ) :
    ∀ a b : α, decide (f a ≤ f b) = true ∨ decide (f b ≤ f a) = true := by
  intro a b
  rcases le_total (f a) (f b) with h | h
  · exact Or.inl (decide_eq_true h)
  · exact Or.inr (decide_eq_true h)

theorem decide_ge_trans {α : Type} (f : α → ℚ) :
    ∀ a b c : α, decide (f b ≤ f a) = true → decide (f c ≤ f b) = true →
      decide (f c ≤ f a) = true := by
  intro a b c hab hbc
  rw [decide_eq_true_eq] at *
  exact le_trans hbc hab

theorem decide_ge_total {α : Type} (f : α → ℚ) :
    ∀ a b : α, decide (f b ≤ f a) = true ∨ decide (f a ≤ f b) = true := by
  intro a b
  rcases le_total (f b) (f a) with h | h
  · exact Or.inl (decide_eq_true h)
  · exact Or.inr (decide_eq_true h)

theorem sortBy_take_le_all {α : Type} (le : α → α → Bool)
    (htrans : ∀ a b c, le a b = true → le b c = true → le a c = true)
    (htot : ∀ a b, le a b = true ∨ le b a = true)
    (l : List α) (n : ℕ) :
    ∀ x ∈ (sortBy le l).take n, ∀ y ∈ l, y ∉ (sortBy le l).take n →
      le x y = true := by
  intro x hx y hy hnot
  have hsorted := pairwise_sortBy le htrans htot l
  have hy' : y ∈ sortBy le l := mem_sortBy.mpr hy
  rw [← List.take_append_drop n (sortBy le l)] at hy' hsorted
  rcases List.mem_append.mp hy' with hyt | hyd
  · exact absurd hyt hnot
  · rw [List.pairwise_append] at hsorted
    exact hsorted.2.2 x hx y hyd

theorem run_comparison_cheapest_eq (t : Table) (h : t.rows.isEmpty = false) :
    (run_comparison t).2.1
      = ((sortBy (fun a b => decide (a.price ≤ b.price))
          (ensureSourceComp t).rows).take 10).map projCheap := by
  simp [run_comparison, h]

theorem ensureSourceComp_prices (t : Table) :
    (ensureSourceComp t).rows.map (·.price) = t.rows.map (·.price) := by
  unfold ensureSourceComp
  split
  · rw [List.map_map]; rfl
  · split
    · rw [List.map_map]; rfl
    · rfl

/-- C4: the cheapest-listings report of `run_comparison` on a non-empty clean
table has at most 10 rows, is sorted in ascending order of price, and every
listing in it is at most as expensive as every listing of the table that is
not in it (the `source` fix-up changes no price, as the third conjunct
records). -/
theorem run_comparison_cheapest_report (t : Table) (h : t.rows ≠ []) :
    (run_comparison t).2.1.length ≤ 10 ∧
    List.Pairwise (fun a b : CheapRow => a.price ≤ b.price) (run_comparison t).2.1 ∧
    (ensureSourceComp t).rows.map (·.price) = t.rows.map (·.price) ∧
    (∀ x ∈ (run_comparison t).2.1, ∀ y ∈ (ensureSourceComp t).rows,
      projCheap y ∉ (run_comparison t).2.1 → x.price ≤ y.price) := by
  have hne : t.rows.isEmpty = false := by
    cases hr : t.rows with
    | nil => exact absurd hr h
    | cons a l => rfl
  have hrep := run_comparison_cheapest_eq t hne
  refine ⟨?_, ?_, ensureSourceComp_prices t, ?_⟩
  · rw [hrep, List.length_map]
    exact List.length_take_le 10 _
  · rw [hrep]
    refine List.pairwise_map.mpr ?_
    have hs := List.Pairwise.sublist (List.take_sublist 10 _)
      (pairwise_sortBy (fun a b : Row => decide (a.price ≤ b.price))
        (decide_le_trans (fun r : Row => r.price))
        (decide_le_total (fun r : Row => r.price))
        (ensureSourceComp t).rows)
    exact hs.imp (fun hab => decide_eq_true_eq.mp hab)
  · intro x hx y hy hnot
    rw [hrep] at hx hnot
    rw [List.mem_map] at hx
    obtain ⟨a, ha, hxa⟩ := hx
    have hy' : y ∉ (sortBy (fun a b : Row => decide (a.price ≤ b.price))
        (ensureSourceComp t).rows).take 10 :=
      fun hyt => hnot (List.mem_map_of_mem projCheap hyt)
    have hle := sortBy_take_le_all (fun a b : Row => decide (a.price ≤ b.price))
      (decide_le_trans (fun r : Row => r.price))
      (decide_le_total (fun r : Row => r.price))
      (ensureSourceComp t).rows 10 a ha y hy hy'
    rw [← hxa]
    exact decide_eq_true_eq.mp hle

/-- Witness for C4 at the six-listing sample. -/
theorem run_comparison_cheapest_report_witness :
    tableSample.rows ≠ [] ∧
    (run_comparison tableSample).2.1.length ≤ 10 ∧
    List.Pairwise (fun a b : CheapRow => a.price ≤ b.price)
      (run_comparison tableSample).2.1 :=
  ⟨by decide,
    (run_comparison_cheapest_report tableSample (by decide)).1,
    (run_comparison_cheapest_report tableSample (by decide)).2.1⟩

theorem run_comparison_source_eq (t : Table) (h : t.rows.isEmpty = false) :
    (run_comparison t).2.2.1
      = sortBy (fun a b => decide (a.min_price ≤ b.min_price))
          (((ensureSourceComp t).rows.map (·.source)).dedup.map
            (mkSourceRow (ensureSourceComp t).rows)) := by
  simp [run_comparison, h]

theorem map_source_mkSourceRow (rows : List Row) (keys : List String) :
    (keys.map (mkSourceRow rows)).map (·.source) = keys := by
  rw [List.map_map]
  exact List.map_id _

/-- C5: the per-source report of `run_comparison` on a non-empty clean table
has exactly one row per distinct source value; its count, min, mean and max
are the count, minimum, arithmetic mean and maximum of that source's prices;
and the rows are sorted in ascending order of `min_price`. -/
theorem run_comparison_source_report (t : Table) (h : t.rows ≠ []) :
    (∀ s ∈ (ensureSourceComp t).rows.map (·.source),
        ∃ g ∈ (run_comparison t).2.2.1, g.source = s) ∧
    (∀ g ∈ (run_comparison t).2.2.1,
        g.source ∈ (ensureSourceComp t).rows.map (·.source)) ∧
    ((run_comparison t).2.2.1.map (·.source)).Nodup ∧
    (∀ g ∈ (run_comparison t).2.2.1,
        g.count = (sourcePrices (ensureSourceComp t).rows g.source).length ∧
        g.min_price ∈ sourcePrices (ensureSourceComp t).rows g.source ∧
        (∀ p ∈ sourcePrices (ensureSourceComp t).rows g.source, g.min_price ≤ p) ∧
        g.max_price ∈ sourcePrices (ensureSourceComp t).rows g.source ∧
        (∀ p ∈ sourcePrices (ensureSourceComp t).rows g.source, p ≤ g.max_price) ∧
        g.avg_price = (sourcePrices (ensureSourceComp t).rows g.source).sum
          / ((sourcePrices (ensureSourceComp t).rows g.source).length : ℚ)) ∧
    List.Pairwise (fun a b : SourceRow => a.min_price ≤ b.min_price)
      (run_comparison t).2.2.1 := by
  have hne : t.rows.isEmpty = false := by
    cases hr : t.rows with
    | nil => exact absurd hr h
    | cons a l => rfl
  have hrep := run_comparison_source_eq t hne
  have hmem : ∀ g, g ∈ (run_comparison t).2.2.1 ↔
      g ∈ ((ensureSourceComp t).rows.map (·.source)).dedup.map
        (mkSourceRow (ensureSourceComp t).rows) := by
    intro g
    rw [hrep]
    exact mem_sortBy
  refine ⟨?_, ?_, ?_, ?_, ?_⟩
  · intro s hs
    exact ⟨mkSourceRow (ensureSourceComp t).rows s,
      (hmem _).mpr (List.mem_map_of_mem _ (List.mem_dedup.mpr hs)), rfl⟩
  · intro g hg
    obtain ⟨s, hsk, hgs⟩ := List.mem_map.mp ((hmem g).mp hg)
    rw [← hgs]
    exact List.mem_dedup.mp hsk
  · have hperm : List.Perm ((run_comparison t).2.2.1.map (·.source))
        ((((ensureSourceComp t).rows.map (·.source)).dedup.map
            (mkSourceRow (ensureSourceComp t).rows)).map (·.source)) := by
      rw [hrep]
      exact (perm_sortBy _ _).map _
    rw [map_source_mkSourceRow] at hperm
    exact hperm.nodup_iff.mpr (List.nodup_dedup _)
  · intro g hg
    obtain ⟨s, hsk, hgs⟩ := List.mem_map.mp ((hmem g).mp hg)
    have hsrc : s ∈ (ensureSourceComp t).rows.map (·.source) := List.mem_dedup.mp hsk
    obtain ⟨r, hr, hrs⟩ := List.mem_map.mp hsrc
    have hps : r.price ∈ sourcePrices (ensureSourceComp t).rows s := by
      unfold sourcePrices
      exact List.mem_map_of_mem _ (List.mem_filter.mpr ⟨hr, decide_eq_true hrs⟩)
    have hnonempty : sourcePrices (ensureSourceComp t).rows s ≠ [] :=
      List.ne_nil_of_mem hps
    rw [← hgs]
    exact ⟨rfl, listMin_mem hnonempty, fun p hp => listMin_le p hp,
      listMax_mem hnonempty, fun p hp => listMax_ge p hp, rfl⟩
  · rw [hrep]
    exact (pairwise_sortBy (fun a b : SourceRow => decide (a.min_price ≤ b.min_price))
      (decide_le_trans (fun g : SourceRow => g.min_price))
      (decide_le_total (fun g : SourceRow => g.min_price)) _).imp
      (fun hab => decide_eq_true_eq.mp hab)

/-- Witness for C5 at the six-listing sample: the source `"Amazon"` is
covered, and the report is sorted by `min_price`. -/
theorem run_comparison_source_report_witness :
    (∃ g ∈ (run_comparison tableSample).2.2.1, g.source = "Amazon") ∧
    List.Pairwise (fun a b : SourceRow => a.min_price ≤ b.min_price)
      (run_comparison tableSample).2.2.1 :=
  ⟨(run_comparison_source_report tableSample (by decide)).1 "Amazon" (by decide),
    (run_comparison_source_report tableSample (by decide)).2.2.2.2⟩

theorem run_comparison_hist_eq (t : Table) (h : t.rows.isEmpty = false)
    (hh : (ensureSourceComp t).hasHistoric = true) :
    (run_comparison t).2.2.2
      = if ((ensureSourceComp t).rows.filter (fun r => r.historicAvg.isSome)).isEmpty
        then []
        else (sortBy (fun a b => decide (b.saving ≤ a.saving))
          (((ensureSourceComp t).rows.filter
            (fun r => r.historicAvg.isSome)).map mkHist)).take 10 := by
  simp [run_comparison, h, hh]

/-- C6: on a clean table carrying the `historic_avg_price` column, the
historical report draws exactly on the listings with a non-null historic
average: it contains only their saving rows, covers all of them whenever
there are at most 10, each saving equals
(historic − price) / (historic, with 0 replaced by 1) × 100, and the report
is the at-most-10 largest savings sorted in descending order. -/
theorem run_comparison_historic_report (t : Table) (hh : t.hasHistoric = true) :
    (∀ x ∈ (run_comparison t).2.2.2, x ∈ histCandidates t) ∧
    (run_comparison t).2.2.2.length = min 10 (histCandidates t).length ∧
    (∀ x ∈ histCandidates t,
        x.saving = (x.historic_avg_price - x.price)
          / (if x.historic_avg_price = 0 then 1 else x.historic_avg_price) * 100) ∧
    List.Pairwise (fun a b : HistRow => b.saving ≤ a.saving) (run_comparison t).2.2.2 ∧
    ((histCandidates t).length ≤ 10 →
      ∀ y ∈ histCandidates t, y ∈ (run_comparison t).2.2.2) ∧
    (∀ x ∈ (run_comparison t).2.2.2, ∀ y ∈ histCandidates t,
        y ∉ (run_comparison t).2.2.2 → y.saving ≤ x.saving) := by
  have hsaving : ∀ x ∈ histCandidates t,
      x.saving = (x.historic_avg_price - x.price)
        / (if x.historic_avg_price = 0 then 1 else x.historic_avg_price) * 100 := by
    intro x hx
    obtain ⟨r, _, hrx⟩ := List.mem_map.mp hx
    rw [← hrx]
    rfl
  by_cases hrows : t.rows.isEmpty
  · have hrnil : t.rows = [] := List.isEmpty_iff.mp hrows
    have hcands : histCandidates t = [] := by
      unfold histCandidates
      rw [ensureSourceComp_rows_nil t hrnil]
      rfl
    have hrep : (run_comparison t).2.2.2 = [] := by
      simp [run_comparison, hrows]
    rw [hrep, hcands]
    exact ⟨fun x hx => absurd hx (List.not_mem_nil x), by simp,
      fun x hx => absurd hx (List.not_mem_nil x),
      List.Pairwise.nil, fun _ y hy => absurd hy (List.not_mem_nil y),
      fun x hx => absurd hx (List.not_mem_nil x)⟩
  · have hne : t.rows.isEmpty = false := by
      cases hb : t.rows.isEmpty
      · rfl
      · exact absurd hb hrows
    have hh' : (ensureSourceComp t).hasHistoric = true := by
      rw [(ensureSourceComp_flags t).2]
      exact hh
    have hrep := run_comparison_hist_eq t hne hh'
    by_cases hdf : ((ensureSourceComp t).rows.filter (fun r => r.historicAvg.isSome)).isEmpty
    · have hcands : histCandidates t = [] := by
        unfold histCandidates
        rw [List.isEmpty_iff.mp hdf]
        rfl
      rw [hrep, if_pos hdf, hcands]
      exact ⟨fun x hx => absurd hx (List.not_mem_nil x), by simp,
        fun x hx => absurd hx (List.not_mem_nil x),
        List.Pairwise.nil, fun _ y hy => absurd hy (List.not_mem_nil y),
        fun x hx => absurd hx (List.not_mem_nil x)⟩
    · rw [hrep, if_neg hdf]
      unfold histCandidates at *
      refine ⟨?_, ?_, hsaving, ?_, ?_, ?_⟩
      · intro x hx
        exact mem_sortBy.mp (List.mem_of_mem_take hx)
      · rw [List.length_take, length_sortBy]
      · exact (List.Pairwise.sublist (List.take_sublist 10 _)
          (pairwise_sortBy (fun a b : HistRow => decide (b.saving ≤ a.saving))
            (decide_ge_trans (fun x : HistRow => x.saving))
            (decide_ge_total (fun x : HistRow => x.saving)) _)).imp
          (fun hab => decide_eq_true_eq.mp hab)
      · intro hlen y hy
        have hlen' : (sortBy (fun a b : HistRow => decide (b.saving ≤ a.saving))
            (((ensureSourceComp t).rows.filter
              (fun r => r.historicAvg.isSome)).map mkHist)).length ≤ 10 := by
          rw [length_sortBy]
          exact hlen
        rw [List.take_of_length_le hlen']
        exact mem_sortBy.mpr hy
      · intro x hx y hy hnot
        have hle := sortBy_take_le_all
          (fun a b : HistRow => decide (b.saving ≤ a.saving))
          (decide_ge_trans (fun x : HistRow => x.saving))
          (decide_ge_total (fun x : HistRow => x.saving)) _ 10 x hx y hy hnot
        exact decide_eq_true_eq.mp hle

/-- Witness for C6 at a concrete enriched table with two non-null historic
averages (one of them `0`) and one null. -/
theorem run_comparison_historic_report_witness :
    histTable.hasHistoric = true ∧
    (run_comparison histTable).2.2.2.length = min 10 (histCandidates histTable).length ∧
    List.Pairwise (fun a b : HistRow => b.saving ≤ a.saving)
      (run_comparison histTable).2.2.2 :=
  ⟨rfl, (run_comparison_historic_report histTable rfl).2.1,
    (run_comparison_historic_report histTable rfl).2.2.2.1⟩

end ECom
